import Mathlib

/-!
Verification of the task-assignment core and of the TodoPage frontend logic
of the todo application (Person registry, Task store, assignment coordinator,
and the filter select / transport encoding in `TodoPage.tsx`).
-/

namespace TodoApp

/-- A person of the roster (see `interface Person` in TodoPage.tsx and §3 of the spec). -/
structure Person where
  id : Nat
  name : String
deriving DecidableEq, Repr

/-- A task (see `interface Todo` in TodoPage.tsx and §3 of the spec); `created_at`
is an abstract timestamp. -/
structure Task where
  id : Nat
  title : String
  is_done : Bool
  created_at : Nat
  assigned_to_id : Option Nat
deriving DecidableEq, Repr

/-- From src/frontend/src/pages/TodoPage.tsx, `getPersonName`: null renders as
"Unassigned", a resolvable id as the person's name, a dangling id as "Unknown". -/
def getPersonName (people : List Person) (personId : Option Nat) : String :=
  match personId with
  | none => "Unassigned"
  | some pid =>
    match people.find? (fun p => p.id == pid) with
    | some p => p.name
    | none => "Unknown"

/-- Modelled from the source's JS `String(n)` applied to a natural-number id:
the decimal digit characters of `n`, most significant first. -/
def natToDecChars (n : Nat) : List Char :=
  if n < 10 then [Nat.digitChar n]
  else natToDecChars (n / 10) ++ [Nat.digitChar (n % 10)]
decreasing_by exact Nat.div_lt_self (by omega) (by omega)

/-- Modelled from the source's JS `String(n)`: the decimal string of `n`. -/
def jsStringOfNat (n : Nat) : String :=
  ⟨natToDecChars n⟩

/-- The decimal value of a character, `none` when it is not one of `0`–`9`. -/
def decDigit (c : Char) : Option Nat :=
  if 48 ≤ c.toNat ∧ c.toNat ≤ 57 then some (c.toNat - 48) else none

/-- Positional decimal accumulator over a character list; `none` on the first
non-digit character. -/
def parseDecAux (acc : Nat) : List Char → Option Nat
  | [] => some acc
  | c :: cs =>
    match decDigit c with
    | some d => parseDecAux (acc * 10 + d) cs
    | none => none

/-- Modelled from the source's JS `Number(s)` on the strings this UI produces:
`Number('') = 0`, an all-digit string parses positionally, and anything else is
NaN, modelled as `none`. -/
def jsNumberNat (s : String) : Option Nat :=
  parseDecAux 0 s.data

theorem decDigit_digitChar {d : Nat} (h : d < 10) :
    decDigit (Nat.digitChar d) = some d := by
  interval_cases d <;> decide

theorem parseDecAux_append (acc : Nat) (l1 l2 : List Char) :
    parseDecAux acc (l1 ++ l2) =
      (parseDecAux acc l1).bind (fun a => parseDecAux a l2) := by
  induction l1 generalizing acc with
  | nil => rfl
  | cons c cs ih =>
    simp only [List.cons_append, parseDecAux]
    cases decDigit c with
    | none => rfl
    | some d => exact ih (acc * 10 + d)

theorem parseDecAux_natToDecChars (n : Nat) :
    ∀ acc, parseDecAux acc (natToDecChars n) =
      some (acc * 10 ^ (natToDecChars n).length + n) := by
  induction n using Nat.strong_induction_on with
  | _ n ih =>
    intro acc
    rw [natToDecChars]
    by_cases h : n < 10
    · simp only [if_pos h, parseDecAux, decDigit_digitChar h, List.length_singleton]
      norm_num
    · have hlt : n / 10 < n := Nat.div_lt_self (by omega) (by omega)
      have hd : decDigit (Nat.digitChar (n % 10)) = some (n % 10) :=
        decDigit_digitChar (Nat.mod_lt n (by omega))
      simp only [if_neg h, parseDecAux_append, ih _ hlt acc, Option.some_bind,
        parseDecAux, hd, List.length_append, List.length_singleton]
      congr 1
      rw [pow_succ, ← mul_assoc]
      generalize acc * 10 ^ (natToDecChars (n / 10)).length = k
      omega

theorem jsNumberNat_jsStringOfNat (n : Nat) :
    jsNumberNat (jsStringOfNat n) = some n := by
  show parseDecAux 0 (natToDecChars n) = some n
  rw [parseDecAux_natToDecChars]
  simp

theorem natToDecChars_ne_nil (n : Nat) : natToDecChars n ≠ [] := by
  rw [natToDecChars]
  by_cases h : n < 10 <;> simp [h]

theorem natToDecChars_digits (n : Nat) :
    ∀ c ∈ natToDecChars n, (decDigit c).isSome := by
  induction n using Nat.strong_induction_on with
  | _ n ih =>
    intro c hc
    rw [natToDecChars] at hc
    by_cases h : n < 10
    · simp only [if_pos h, List.mem_singleton] at hc
      subst hc
      rw [decDigit_digitChar h]
      rfl
    · simp only [if_neg h, List.mem_append, List.mem_singleton] at hc
      rcases hc with hc | hc
      · exact ih _ (Nat.div_lt_self (by omega) (by omega)) c hc
      · subst hc
        rw [decDigit_digitChar (Nat.mod_lt n (by omega))]
        rfl

theorem jsStringOfNat_ne_empty (n : Nat) : jsStringOfNat n ≠ "" := by
  intro h
  exact natToDecChars_ne_nil n (congrArg String.data h)

theorem jsStringOfNat_ne_unassigned (n : Nat) : jsStringOfNat n ≠ "unassigned" := by
  intro h
  have hdata : natToDecChars n = "unassigned".data := congrArg String.data h
  have hu : 'u' ∈ natToDecChars n := by
    rw [hdata]
    decide
  have := natToDecChars_digits n 'u' hu
  simp [decDigit] at this

/-- The three filter states of the task list. In TodoPage.tsx the state
`filterPersonId : number | null | undefined` carries exactly these:
`undefined` = ALL, `null` = UNASSIGNED, a number = BY_PERSON(id). -/
inductive FilterSpec where
  | all
  | unassigned
  | byPerson (pid : Nat)
deriving DecidableEq, Repr

/-- From TodoPage.tsx, the filter select's `value` expression:
`filterPersonId === null ? 'unassigned' : filterPersonId === undefined ? '' : filterPersonId`
(React renders the number as its decimal string). -/
def encodeFilterValue : FilterSpec → String
  | .all => ""
  | .unassigned => "unassigned"
  | .byPerson pid => jsStringOfNat pid

/-- From TodoPage.tsx, the filter select's `onChange` handler: `''` sets
`undefined` (ALL), `'unassigned'` sets `null` (UNASSIGNED), any other value sets
`Number(value)`; a NaN result of `Number` is modelled as `none`. -/
def decodeFilterValue (s : String) : Option FilterSpec :=
  if s = "" then some .all
  else if s = "unassigned" then some .unassigned
  else (jsNumberNat s).map .byPerson

/-- From TodoPage.tsx, `fetchTodos`: `undefined` sends no `assigned_to_id`
query parameter, `null` sends the empty string, a number sends `String(id)`. -/
def fetchTodosQuery : FilterSpec → Option String
  | .all => none
  | .unassigned => some ""
  | .byPerson pid => some (jsStringOfNat pid)

/-- Modelled from the spec: the API layer's reading of
`GET tasks[?assigned_to_id=<id>|'']` — an absent parameter means ALL, an
empty-string value means UNASSIGNED, a numeric value means BY_PERSON(id).
The backend API layer itself is not part of this repository slice. -/
def serverDecodeParam : Option String → Option FilterSpec
  | none => some .all
  | some s => if s = "" then some .unassigned else (jsNumberNat s).map .byPerson

/-- Claim C7: the task-list transport encoding maps absent = ALL, empty string =
UNASSIGNED, decimal number = BY_PERSON(id), and `fetchTodos` implements exactly
this mapping from its `number | null | undefined` argument: the three cases are
sent as specified, and decoding the sent parameter per the spec recovers the
original filter state. -/
theorem fetchTodos_param_mapping :
    fetchTodosQuery .all = none ∧
    fetchTodosQuery .unassigned = some "" ∧
    (∀ pid, fetchTodosQuery (.byPerson pid) = some (jsStringOfNat pid)) ∧
    (∀ f, serverDecodeParam (fetchTodosQuery f) = some f) := by
  refine ⟨rfl, rfl, fun pid => rfl, fun f => ?_⟩
  cases f with
  | all => rfl
  | unassigned => rfl
  | byPerson pid =>
    simp only [fetchTodosQuery, serverDecodeParam,
      if_neg (jsStringOfNat_ne_empty pid), jsNumberNat_jsStringOfNat pid]
    rfl

/-- Claim C9 (counterexample): `getPersonName` does not return "Unassigned"
*only* for a null id — a person literally named "Unassigned" makes a non-null
id render as "Unassigned" too. -/
theorem getPersonName_unassigned_collision :
    getPersonName [⟨1, "Unassigned"⟩] (some 1) = "Unassigned" ∧
      (some 1 ≠ (none : Option Nat)) :=
  ⟨rfl, by decide⟩

/-- Claim C9 (amended): `getPersonName` is total and case-splits three ways:
it returns "Unassigned" whenever `personId` is null; if `personId` is non-null
and some person in the list has that id, it returns such a person's name;
otherwise (a dangling non-null id) it returns "Unknown" rather than failing. -/
theorem getPersonName_cases (people : List Person) :
    getPersonName people none = "Unassigned" ∧
    (∀ pid, (∃ p ∈ people, p.id = pid) →
      ∃ p ∈ people, p.id = pid ∧ getPersonName people (some pid) = p.name) ∧
    (∀ pid, (∀ p ∈ people, p.id ≠ pid) →
      getPersonName people (some pid) = "Unknown") := by
  refine ⟨rfl, fun pid hex => ?_, fun pid hall => ?_⟩
  · rcases hex with ⟨q, hq, hqid⟩
    cases hp : people.find? (fun p => p.id == pid) with
    | none =>
      rw [List.find?_eq_none] at hp
      have := hp q hq
      simp [hqid] at this
    | some p =>
      refine ⟨p, List.mem_of_find?_eq_some hp, ?_, ?_⟩
      · simpa using List.find?_some hp
      · simp only [getPersonName, hp]
  · have hfind : people.find? (fun p => p.id == pid) = none := by
      rw [List.find?_eq_none]
      intro p hp
      simpa using hall p hp
    simp only [getPersonName, hfind]

/-- Claim C9 (witness): the amended cases at a concrete roster. -/
theorem getPersonName_cases_witness :
    getPersonName [⟨1, "Alice"⟩] none = "Unassigned" ∧
      (∃ p ∈ [Person.mk 1 "Alice"], p.id = 1 ∧
        getPersonName [⟨1, "Alice"⟩] (some 1) = p.name) :=
  ⟨(getPersonName_cases [⟨1, "Alice"⟩]).1,
    (getPersonName_cases [⟨1, "Alice"⟩]).2.1 1 ⟨⟨1, "Alice"⟩, by simp⟩⟩

/-- Claim C10: the filter dropdown's encoding and decoding are mutually
inverse — for every filter state, encoding it to the select's string value and
decoding that string back through the `onChange` handler yields the original
state. -/
theorem filter_select_roundtrip :
    ∀ f : FilterSpec, decodeFilterValue (encodeFilterValue f) = some f := by
  intro f
  cases f with
  | all => rfl
  | unassigned => rfl
  | byPerson pid =>
    simp only [encodeFilterValue, decodeFilterValue,
      if_neg (jsStringOfNat_ne_empty pid),
      if_neg (jsStringOfNat_ne_unassigned pid),
      jsNumberNat_jsStringOfNat pid]
    rfl

/-- Modelled from the spec (§3, §9): the shared store holding the Person and
Task sets — the backend core is not part of this repository slice.
`nextPersonId` and `nextTaskId` model server-assigned fresh ids. -/
structure CoreState where
  people : List Person
  tasks : List Task
  nextPersonId : Nat
  nextTaskId : Nat
deriving DecidableEq, Repr

/-- Modelled from the spec (§7): the error taxonomy of the core. -/
inductive ApiError where
  | validation
  | notFound
  | conflict
deriving DecidableEq, Repr

/-- Whether a person with the given id currently exists in the registry. -/
def personExists (s : CoreState) (pid : Nat) : Bool :=
  s.people.any (fun p => p.id == pid)

/-- Whether a task with the given id currently exists in the store. -/
def taskExists (s : CoreState) (tid : Nat) : Bool :=
  s.tasks.any (fun t => t.id == tid)

/-- Whether some person already carries the given name (§4.1, exact match). -/
def nameTaken (s : CoreState) (nm : String) : Bool :=
  s.people.any (fun p => p.name == nm)

/-- Number of tasks currently referencing the given person id (§3 invariant 3). -/
def refCount (s : CoreState) (pid : Nat) : Nat :=
  (s.tasks.filter (fun t => t.assigned_to_id == some pid)).length

/-- Modelled from the spec (§4.1 `add`): empty or taken name is a
`ValidationError`; otherwise a fresh id is allocated and the person appended. -/
def addPerson (s : CoreState) (nm : String) : Except ApiError CoreState :=
  if nm = "" then .error .validation
  else if nameTaken s nm then .error .validation
  else .ok { s with
    people := s.people ++ [⟨s.nextPersonId, nm⟩],
    nextPersonId := s.nextPersonId + 1 }

/-- Modelled from the spec (§4.1 `rename`): unknown id is `NotFoundError`;
empty or colliding new name is a `ValidationError`. -/
def renamePerson (s : CoreState) (pid : Nat) (newName : String) :
    Except ApiError CoreState :=
  if personExists s pid then
    if newName = "" then .error .validation
    else if s.people.any (fun p => p.name == newName && p.id != pid) then
      .error .validation
    else .ok { s with
      people := s.people.map
        (fun p => if p.id = pid then { p with name := newName } else p) }
  else .error .notFound

/-- Modelled from the spec (§4.1 `remove`): unknown id is `NotFoundError`; a
live task reference is a `ConflictError`; the reference check and the deletion
are one atomic step. -/
def removePerson (s : CoreState) (pid : Nat) : Except ApiError CoreState :=
  if personExists s pid then
    if refCount s pid = 0 then
      .ok { s with people := s.people.filter (fun p => p.id != pid) }
    else .error .conflict
  else .error .notFound

/-- Modelled from the spec (§4.2 `create`): empty title is a `ValidationError`;
a non-null unknown assignee is a `NotFoundError`; otherwise the task is
appended with `is_done = false` and the current timestamp. -/
def createTask (s : CoreState) (title : String) (assignedTo : Option Nat)
    (now : Nat) : Except ApiError CoreState :=
  if title = "" then .error .validation
  else
    match assignedTo with
    | some pid =>
      if personExists s pid then
        .ok { s with
          tasks := s.tasks ++ [⟨s.nextTaskId, title, false, now, some pid⟩],
          nextTaskId := s.nextTaskId + 1 }
      else .error .notFound
    | none =>
      .ok { s with
        tasks := s.tasks ++ [⟨s.nextTaskId, title, false, now, none⟩],
        nextTaskId := s.nextTaskId + 1 }

/-- Modelled from the spec (§4.2 `markDone`): unknown id is `NotFoundError`;
otherwise sets `is_done := true` (idempotent, no error when already done). -/
def markDone (s : CoreState) (tid : Nat) : Except ApiError CoreState :=
  if taskExists s tid then
    .ok { s with
      tasks := s.tasks.map
        (fun t => if t.id = tid then { t with is_done := true } else t) }
  else .error .notFound

/-- Modelled from the spec (§4.2 `delete`): unknown id is `NotFoundError`;
otherwise unconditional deletion. -/
def deleteTask (s : CoreState) (tid : Nat) : Except ApiError CoreState :=
  if taskExists s tid then
    .ok { s with tasks := s.tasks.filter (fun t => t.id != tid) }
  else .error .notFound

/-- Modelled from the spec (§4.3 `assign`): unknown task, or non-null unknown
person, is a `NotFoundError`; otherwise the prior assignment is replaced
unconditionally, `none` clearing it. -/
def assign (s : CoreState) (tid : Nat) (pid : Option Nat) :
    Except ApiError CoreState :=
  if taskExists s tid then
    match pid with
    | some p =>
      if personExists s p then
        .ok { s with
          tasks := s.tasks.map
            (fun t => if t.id = tid then { t with assigned_to_id := some p } else t) }
      else .error .notFound
    | none =>
      .ok { s with
        tasks := s.tasks.map
          (fun t => if t.id = tid then { t with assigned_to_id := none } else t) }
  else .error .notFound

/-- Modelled from the spec (§4.3 `filter`): ALL returns every task, UNASSIGNED
those with a null assignment, BY_PERSON those assigned to the person —
`NotFoundError` when that person does not exist. -/
def filterTasks (s : CoreState) (f : FilterSpec) : Except ApiError (List Task) :=
  match f with
  | .all => .ok s.tasks
  | .unassigned => .ok (s.tasks.filter (fun t => t.assigned_to_id == none))
  | .byPerson pid =>
    if personExists s pid then
      .ok (s.tasks.filter (fun t => t.assigned_to_id == some pid))
    else .error .notFound

/-- The mutating operations of the core (§4). -/
inductive Op where
  | addPerson (nm : String)
  | renamePerson (pid : Nat) (newName : String)
  | removePerson (pid : Nat)
  | createTask (title : String) (assignedTo : Option Nat) (now : Nat)
  | markDone (tid : Nat)
  | deleteTask (tid : Nat)
  | assign (tid : Nat) (pid : Option Nat)
deriving DecidableEq, Repr

/-- Dispatch of one core operation. -/
def applyOp (op : Op) (s : CoreState) : Except ApiError CoreState :=
  match op with
  | .addPerson nm => addPerson s nm
  | .renamePerson pid newName => renamePerson s pid newName
  | .removePerson pid => removePerson s pid
  | .createTask title assignedTo now => createTask s title assignedTo now
  | .markDone tid => markDone s tid
  | .deleteTask tid => deleteTask s tid
  | .assign tid pid => assign s tid pid

/-- One request against the shared store: a failed operation has no effect on
state (§7: an operation either fully commits or has no effect). -/
def exec (op : Op) (s : CoreState) : CoreState × Option ApiError :=
  match applyOp op s with
  | .ok s' => (s', none)
  | .error e => (s, some e)

/-- A serialization of concurrently submitted operations, executed atomically
one after the other (§5: every operation runs as a single transaction). -/
def execSeq (ops : List Op) (s : CoreState) : CoreState :=
  ops.foldl (fun st op => (exec op st).1) s

/-- Referential integrity (§3, invariant 1): every non-null `assigned_to_id`
of a task resolves to a currently existing person. -/
def refsOk (s : CoreState) : Bool :=
  s.tasks.all (fun t =>
    match t.assigned_to_id with
    | none => true
    | some pid => personExists s pid)

theorem personExists_iff (s : CoreState) (pid : Nat) :
    personExists s pid = true ↔ ∃ p ∈ s.people, p.id = pid := by
  simp [personExists]

theorem taskExists_iff (s : CoreState) (tid : Nat) :
    taskExists s tid = true ↔ ∃ t ∈ s.tasks, t.id = tid := by
  simp [taskExists]

theorem refsOk_iff (s : CoreState) :
    refsOk s = true ↔
      ∀ t ∈ s.tasks, ∀ pid, t.assigned_to_id = some pid →
        personExists s pid = true := by
  simp only [refsOk, List.all_eq_true]
  constructor
  · intro h t ht pid hpid
    have := h t ht
    rw [hpid] at this
    exact this
  · intro h t ht
    cases hta : t.assigned_to_id with
    | none => rfl
    | some pid => exact h t ht pid hta

theorem refCount_eq_zero_iff (s : CoreState) (pid : Nat) :
    refCount s pid = 0 ↔ ∀ t ∈ s.tasks, t.assigned_to_id ≠ some pid := by
  simp [refCount, List.length_eq_zero, List.filter_eq_nil_iff]

theorem refsOk_preserved {op : Op} {s s' : CoreState} (h : refsOk s = true)
    (hok : applyOp op s = .ok s') : refsOk s' = true := by
  have href := (refsOk_iff s).mp h
  rw [refsOk_iff]
  cases op with
  | addPerson nm =>
    simp only [applyOp, addPerson] at hok
    split at hok
    · cases hok
    split at hok
    · cases hok
    cases hok
    intro t ht pid hpid
    rw [personExists_iff]
    rcases (personExists_iff s pid).mp (href t ht pid hpid) with ⟨p, hp, hpid'⟩
    exact ⟨p, by simp [hp], hpid'⟩
  | renamePerson pid0 newName =>
    simp only [applyOp, renamePerson] at hok
    split at hok
    case isFalse => cases hok
    split at hok
    · cases hok
    split at hok
    · cases hok
    cases hok
    intro t ht pid hpid
    rw [personExists_iff]
    rcases (personExists_iff s pid).mp (href t ht pid hpid) with ⟨p, hp, hpid'⟩
    refine ⟨if p.id = pid0 then { p with name := newName } else p,
      List.mem_map_of_mem _ hp, ?_⟩
    split <;> simpa using hpid'
  | removePerson pid0 =>
    simp only [applyOp, removePerson] at hok
    split at hok
    case isFalse => cases hok
    case isTrue hex =>
      split at hok
      case isFalse => cases hok
      case isTrue hcnt =>
        cases hok
        intro t ht pid hpid
        rw [personExists_iff]
        rcases (personExists_iff s pid).mp (href t ht pid hpid) with ⟨p, hp, hpid'⟩
        have hne : pid ≠ pid0 := fun he =>
          (refCount_eq_zero_iff s pid0).mp hcnt t ht (he ▸ hpid)
        refine ⟨p, List.mem_filter.mpr ⟨hp, ?_⟩, hpid'⟩
        simp [hpid', hne]
  | createTask title assignedTo now =>
    simp only [applyOp, createTask] at hok
    split at hok
    · cases hok
    cases assignedTo with
    | some pid0 =>
      simp only at hok
      split at hok
      case isFalse => cases hok
      case isTrue hex =>
        cases hok
        intro t ht pid hpid
        rcases List.mem_append.mp ht with ht' | ht'
        · exact href t ht' pid hpid
        · rcases List.mem_singleton.mp ht' with rfl
          cases hpid
          exact hex
    | none =>
      simp only at hok
      cases hok
      intro t ht pid hpid
      rcases List.mem_append.mp ht with ht' | ht'
      · exact href t ht' pid hpid
      · rcases List.mem_singleton.mp ht' with rfl
        cases hpid
  | markDone tid =>
    simp only [applyOp, markDone] at hok
    split at hok
    case isFalse => cases hok
    cases hok
    intro t ht pid hpid
    rcases List.mem_map.mp ht with ⟨t0, ht0, rfl⟩
    have hsame : (if t0.id = tid then { t0 with is_done := true } else t0).assigned_to_id
        = t0.assigned_to_id := by
      split <;> rfl
    exact href t0 ht0 pid (hsame ▸ hpid)
  | deleteTask tid =>
    simp only [applyOp, deleteTask] at hok
    split at hok
    case isFalse => cases hok
    cases hok
    intro t ht pid hpid
    exact href t (List.mem_filter.mp ht).1 pid hpid
  | assign tid pid0 =>
    simp only [applyOp, assign] at hok
    split at hok
    case isFalse => cases hok
    cases pid0 with
    | some q =>
      simp only at hok
      split at hok
      case isFalse => cases hok
      case isTrue hex =>
        cases hok
        intro t ht pid hpid
        rcases List.mem_map.mp ht with ⟨t0, ht0, rfl⟩
        by_cases hid : t0.id = tid
        · rw [if_pos hid] at hpid
          cases hpid
          exact hex
        · rw [if_neg hid] at hpid
          exact href t0 ht0 pid hpid
    | none =>
      simp only at hok
      cases hok
      intro t ht pid hpid
      rcases List.mem_map.mp ht with ⟨t0, ht0, rfl⟩
      by_cases hid : t0.id = tid
      · rw [if_pos hid] at hpid
        cases hpid
      · rw [if_neg hid] at hpid
        exact href t0 ht0 pid hpid

theorem sum_map_ite_zero (ps : List Person) (q : Nat)
    (hq : q ∉ ps.map Person.id) (c : Nat) :
    (ps.map (fun p => if p.id = q then c else 0)).sum = 0 := by
  apply List.sum_eq_zero
  intro x hx
  rcases List.mem_map.mp hx with ⟨p, hp, rfl⟩
  rw [if_neg]
  exact fun he => hq (List.mem_map.mpr ⟨p, hp, he⟩)

theorem sum_map_ite_single (ps : List Person) (hids : (ps.map Person.id).Nodup)
    (q : Nat) (hq : q ∈ ps.map Person.id) (c : Nat) :
    (ps.map (fun p => if p.id = q then c else 0)).sum = c := by
  induction ps with
  | nil => cases hq
  | cons p ps ih =>
    rw [List.map_cons, List.nodup_cons] at hids
    rw [List.map_cons, List.sum_cons]
    by_cases hpq : p.id = q
    · rw [if_pos hpq, sum_map_ite_zero ps q (hpq ▸ hids.1) c]
      omega
    · rw [if_neg hpq, ih hids.2 ?_, Nat.zero_add]
      rcases List.mem_cons.mp (List.map_cons Person.id p ps ▸ hq) with he | hm
      · exact absurd he.symm hpq
      · exact hm

theorem tasks_partition (tasks : List Task) (people : List Person)
    (hids : (people.map Person.id).Nodup)
    (href : ∀ t ∈ tasks, ∀ pid, t.assigned_to_id = some pid →
      ∃ p ∈ people, p.id = pid) :
    tasks.Perm
      (tasks.filter (fun t => t.assigned_to_id == none) ++
        (people.map (fun p =>
          tasks.filter (fun t => t.assigned_to_id == some p.id))).flatten) := by
  rw [List.perm_iff_count]
  intro a
  rw [List.count_append, List.count_flatten, List.map_map]
  by_cases ha : a ∈ tasks
  · cases hta : a.assigned_to_id with
    | none =>
      rw [List.count_filter (by simp [hta])]
      have hs : (people.map (List.count a ∘ fun p =>
          tasks.filter (fun t => t.assigned_to_id == some p.id))).sum = 0 := by
        apply List.sum_eq_zero
        intro x hx
        rcases List.mem_map.mp hx with ⟨p, hp, rfl⟩
        apply List.count_eq_zero.mpr
        intro hmem
        have := (List.mem_filter.mp hmem).2
        simp [hta] at this
      rw [hs]
      omega
    | some q =>
      rw [show (tasks.filter (fun t => t.assigned_to_id == none)).count a = 0 from
        List.count_eq_zero.mpr (fun hmem => by
          have := (List.mem_filter.mp hmem).2
          simp [hta] at this)]
      have hcong : (people.map (List.count a ∘ fun p =>
          tasks.filter (fun t => t.assigned_to_id == some p.id))).sum =
          (people.map (fun p => if p.id = q then tasks.count a else 0)).sum := by
        congr 1
        apply List.map_congr_left
        intro p hp
        by_cases hpq : p.id = q
        · rw [if_pos hpq, Function.comp_apply, hpq,
            List.count_filter (by simp [hta])]
        · rw [if_neg hpq, Function.comp_apply]
          apply List.count_eq_zero.mpr
          intro hmem
          have := (List.mem_filter.mp hmem).2
          rw [hta] at this
          simp at this
          exact hpq this.symm
      rw [hcong, sum_map_ite_single people hids q ?_ (tasks.count a), Nat.zero_add]
      rcases href a ha q hta with ⟨p, hp, hpid⟩
      exact List.mem_map.mpr ⟨p, hp, hpid⟩
  · have hz : tasks.count a = 0 := List.count_eq_zero.mpr ha
    have h1 : (tasks.filter (fun t => t.assigned_to_id == none)).count a = 0 :=
      List.count_eq_zero.mpr (fun hmem => ha (List.mem_filter.mp hmem).1)
    have hs : (people.map (List.count a ∘ fun p =>
        tasks.filter (fun t => t.assigned_to_id == some p.id))).sum = 0 := by
      apply List.sum_eq_zero
      intro x hx
      rcases List.mem_map.mp hx with ⟨p, hp, rfl⟩
      exact List.count_eq_zero.mpr (fun hmem => ha (List.mem_filter.mp hmem).1)
    rw [hz, h1, hs]

theorem exec_of_ok {op : Op} {s s' : CoreState} (h : applyOp op s = .ok s') :
    exec op s = (s', none) := by
  simp [exec, h]

theorem exec_of_error {op : Op} {s : CoreState} {e : ApiError}
    (h : applyOp op s = .error e) : exec op s = (s, some e) := by
  simp [exec, h]

theorem exec_none {op : Op} {s s1 : CoreState} (h : exec op s = (s1, none)) :
    applyOp op s = .ok s1 := by
  cases happ : applyOp op s with
  | ok s' =>
    rw [exec_of_ok happ] at h
    injection h with h1 h2
    rw [h1]
  | error e =>
    rw [exec_of_error happ] at h
    injection h with h1 h2
    cases h2

/-- Claim C1: after every successful operation of the core (create, assign,
markDone, delete, add, rename, remove), every task whose `assigned_to_id` is
non-null references a person that currently exists in the registry; no task
ever holds a dangling `assigned_to_id`. -/
theorem referential_integrity (op : Op) (s s' : CoreState)
    (h : refsOk s = true) (hok : applyOp op s = .ok s') :
    refsOk s' = true ∧
      ∀ t ∈ s'.tasks, ∀ pid, t.assigned_to_id = some pid →
        personExists s' pid = true :=
  ⟨refsOk_preserved h hok, (refsOk_iff s').mp (refsOk_preserved h hok)⟩

/-- Claim C1 (witness): committing `assign 1 (some 1)` from a concrete valid
state leaves the referential-integrity invariant intact. -/
theorem referential_integrity_witness :
    refsOk (CoreState.mk [⟨1, "Alice"⟩] [⟨1, "Write spec", false, 0, some 1⟩] 2 2)
      = true :=
  (referential_integrity (.assign 1 (some 1))
    (CoreState.mk [⟨1, "Alice"⟩] [⟨1, "Write spec", false, 0, none⟩] 2 2)
    (CoreState.mk [⟨1, "Alice"⟩] [⟨1, "Write spec", false, 0, some 1⟩] 2 2)
    (by decide) (by rfl)).1

/-- Claim C2: for a person id `pid` present in the registry, `remove pid`
succeeds iff zero tasks reference `pid` at the moment of commit; when one or
more tasks reference it, the removal fails with `ConflictError`, has no effect
on state, and the person remains in the registry. -/
theorem removePerson_conflict_iff (s : CoreState) (pid : Nat)
    (hex : personExists s pid = true) :
    ((exec (.removePerson pid) s).2 = none ↔ refCount s pid = 0) ∧
    (refCount s pid ≠ 0 →
      exec (.removePerson pid) s = (s, some .conflict) ∧
      personExists (exec (.removePerson pid) s).1 pid = true) := by
  by_cases hcnt : refCount s pid = 0
  · have hok : applyOp (.removePerson pid) s =
        .ok { s with people := s.people.filter (fun p => p.id != pid) } := by
      simp [applyOp, removePerson, hex, hcnt]
    rw [exec_of_ok hok]
    exact ⟨by simp [hcnt], fun hc => absurd hcnt hc⟩
  · have herr : applyOp (.removePerson pid) s = .error .conflict := by
      simp [applyOp, removePerson, hex, hcnt]
    rw [exec_of_error herr]
    exact ⟨by simp [hcnt], fun _ => ⟨rfl, hex⟩⟩

/-- Claim C2 (witness): removing person 1 while task 1 still references it
fails with a conflict and leaves the state unchanged. -/
theorem removePerson_conflict_iff_witness :
    exec (.removePerson 1)
      (CoreState.mk [⟨1, "Alice"⟩] [⟨1, "Write spec", false, 0, some 1⟩] 2 2) =
      (CoreState.mk [⟨1, "Alice"⟩] [⟨1, "Write spec", false, 0, some 1⟩] 2 2,
        some .conflict) :=
  ((removePerson_conflict_iff
    (CoreState.mk [⟨1, "Alice"⟩] [⟨1, "Write spec", false, 0, some 1⟩] 2 2)
    1 (by decide)).2 (by decide)).1

/-- Claim C6: filtering BY_PERSON with a person id that does not resolve to an
existing person fails with `NotFoundError` rather than returning an empty
sequence. -/
theorem filterTasks_byPerson_unknown (s : CoreState) (pid : Nat)
    (h : personExists s pid = false) :
    filterTasks s (.byPerson pid) = .error .notFound := by
  simp [filterTasks, h]

/-- Claim C6 (witness): filtering by the unknown person id 7. -/
theorem filterTasks_byPerson_unknown_witness :
    filterTasks (CoreState.mk [⟨1, "Alice"⟩] [] 2 1) (.byPerson 7) =
      .error .notFound :=
  filterTasks_byPerson_unknown (CoreState.mk [⟨1, "Alice"⟩] [] 2 1) 7 (by decide)

theorem get_map_task (f : Task → Task) (l : List Task) (i : Nat)
    (hi : i < l.length) (hi' : i < (l.map f).length) :
    (l.map f).get ⟨i, hi'⟩ = f (l.get ⟨i, hi⟩) := by
  simp [List.get_eq_getElem]

/-- Claim C4: for every known task id, `assign(taskId, null)` always succeeds
and results in the task having `assigned_to_id = null`, replacing any prior
assignment; all other fields of every task (and all other tasks) are
unchanged. -/
theorem assign_null_clears (s : CoreState) (tid : Nat)
    (h : taskExists s tid = true) :
    ∃ s', applyOp (.assign tid none) s = .ok s' ∧
      s'.people = s.people ∧
      (∀ t ∈ s'.tasks, t.id = tid → t.assigned_to_id = none) ∧
      s'.tasks.length = s.tasks.length ∧
      ∀ i (hi : i < s.tasks.length) (hi' : i < s'.tasks.length),
        (s'.tasks.get ⟨i, hi'⟩).id = (s.tasks.get ⟨i, hi⟩).id ∧
        (s'.tasks.get ⟨i, hi'⟩).title = (s.tasks.get ⟨i, hi⟩).title ∧
        (s'.tasks.get ⟨i, hi'⟩).is_done = (s.tasks.get ⟨i, hi⟩).is_done ∧
        (s'.tasks.get ⟨i, hi'⟩).created_at = (s.tasks.get ⟨i, hi⟩).created_at ∧
        (s'.tasks.get ⟨i, hi'⟩).assigned_to_id =
          (if (s.tasks.get ⟨i, hi⟩).id = tid then none
            else (s.tasks.get ⟨i, hi⟩).assigned_to_id) := by
  refine ⟨{ s with tasks := s.tasks.map (fun t => if t.id = tid then { t with assigned_to_id := none } else t) },
    by simp [applyOp, assign, h], rfl, ?_, by simp, ?_⟩
  · intro t ht htid
    rcases List.mem_map.mp ht with ⟨t0, ht0, rfl⟩
    by_cases h0 : t0.id = tid
    · rw [if_pos h0]
    · rw [if_neg h0] at htid ⊢
      exact absurd htid h0
  · intro i hi hi'
    rw [get_map_task _ _ i hi hi']
    by_cases h0 : (s.tasks.get ⟨i, hi⟩).id = tid
    · simp only [List.get_eq_getElem] at h0
      simp [h0]
    · simp only [List.get_eq_getElem] at h0
      simp [h0]

/-- Claim C4 (witness): clearing the assignment of the concrete task 1. -/
theorem assign_null_clears_witness :
    ∃ s', applyOp (.assign 1 none)
        (CoreState.mk [⟨1, "Alice"⟩] [⟨1, "Write spec", false, 0, some 1⟩] 2 2) =
        .ok s' ∧
      s'.people =
        (CoreState.mk [⟨1, "Alice"⟩] [⟨1, "Write spec", false, 0, some 1⟩] 2 2).people ∧
      (∀ t ∈ s'.tasks, t.id = 1 → t.assigned_to_id = none) ∧
      s'.tasks.length =
        (CoreState.mk [⟨1, "Alice"⟩] [⟨1, "Write spec", false, 0, some 1⟩] 2 2).tasks.length ∧
      ∀ i (hi : i <
          (CoreState.mk [⟨1, "Alice"⟩] [⟨1, "Write spec", false, 0, some 1⟩] 2 2).tasks.length)
        (hi' : i < s'.tasks.length),
        (s'.tasks.get ⟨i, hi'⟩).id =
          ((CoreState.mk [⟨1, "Alice"⟩] [⟨1, "Write spec", false, 0, some 1⟩] 2 2).tasks.get
            ⟨i, hi⟩).id ∧
        (s'.tasks.get ⟨i, hi'⟩).title =
          ((CoreState.mk [⟨1, "Alice"⟩] [⟨1, "Write spec", false, 0, some 1⟩] 2 2).tasks.get
            ⟨i, hi⟩).title ∧
        (s'.tasks.get ⟨i, hi'⟩).is_done =
          ((CoreState.mk [⟨1, "Alice"⟩] [⟨1, "Write spec", false, 0, some 1⟩] 2 2).tasks.get
            ⟨i, hi⟩).is_done ∧
        (s'.tasks.get ⟨i, hi'⟩).created_at =
          ((CoreState.mk [⟨1, "Alice"⟩] [⟨1, "Write spec", false, 0, some 1⟩] 2 2).tasks.get
            ⟨i, hi⟩).created_at ∧
        (s'.tasks.get ⟨i, hi'⟩).assigned_to_id =
          (if ((CoreState.mk [⟨1, "Alice"⟩] [⟨1, "Write spec", false, 0, some 1⟩] 2 2).tasks.get
              ⟨i, hi⟩).id = 1 then none
            else ((CoreState.mk [⟨1, "Alice"⟩] [⟨1, "Write spec", false, 0, some 1⟩] 2 2).tasks.get
              ⟨i, hi⟩).assigned_to_id) :=
  assign_null_clears
    (CoreState.mk [⟨1, "Alice"⟩] [⟨1, "Write spec", false, 0, some 1⟩] 2 2) 1 (by decide)

/-- Claim C5: `markDone` is idempotent — for every known task id, the first
call succeeds and sets `is_done = true`, and a second call returns success with
exactly the same resulting state. -/
theorem markDone_idempotent (s : CoreState) (tid : Nat)
    (h : taskExists s tid = true) :
    ∃ s', applyOp (.markDone tid) s = .ok s' ∧
      applyOp (.markDone tid) s' = .ok s' ∧
      ∀ t ∈ s'.tasks, t.id = tid → t.is_done = true := by
  refine ⟨{ s with tasks := s.tasks.map (fun t => if t.id = tid then { t with is_done := true } else t) },
    by simp [applyOp, markDone, h], ?_, ?_⟩
  · have hex' : taskExists { s with tasks := s.tasks.map (fun t => if t.id = tid then { t with is_done := true } else t) } tid = true := by
      rw [taskExists_iff] at h ⊢
      rcases h with ⟨t, ht, htid⟩
      refine ⟨if t.id = tid then { t with is_done := true } else t,
        List.mem_map_of_mem _ ht, ?_⟩
      split <;> simpa using htid
    have hff : (s.tasks.map
        (fun t => if t.id = tid then { t with is_done := true } else t)).map
          (fun t => if t.id = tid then { t with is_done := true } else t) =
        s.tasks.map (fun t => if t.id = tid then { t with is_done := true } else t) := by
      rw [List.map_map]
      apply List.map_congr_left
      intro t _
      by_cases h0 : t.id = tid
      · simp [Function.comp, h0]
      · simp [Function.comp, h0]
    simp [applyOp, markDone, hex', hff]
  · intro t ht htid
    rcases List.mem_map.mp ht with ⟨t0, ht0, rfl⟩
    by_cases h0 : t0.id = tid
    · rw [if_pos h0]
    · rw [if_neg h0] at htid ⊢
      exact absurd htid h0

/-- Claim C5 (witness): marking the concrete task 1 done twice. -/
theorem markDone_idempotent_witness :
    ∃ s', applyOp (.markDone 1)
        (CoreState.mk [⟨1, "Alice"⟩] [⟨1, "Write spec", false, 0, none⟩] 2 2) = .ok s' ∧
      applyOp (.markDone 1) s' = .ok s' ∧
      ∀ t ∈ s'.tasks, t.id = 1 → t.is_done = true :=
  markDone_idempotent
    (CoreState.mk [⟨1, "Alice"⟩] [⟨1, "Write spec", false, 0, none⟩] 2 2) 1 (by decide)

/-- Claim C3: for every state with distinct person ids and intact references,
`filter(BY_PERSON p)` returns exactly the tasks whose current `assigned_to_id`
equals `p`, `filter(UNASSIGNED)` returns exactly those with a null assignment,
and the union of UNASSIGNED with the BY_PERSON results over all existing
persons is a permutation of `filter(ALL)` — no task is dropped or counted
twice. -/
theorem filter_semantics (s : CoreState)
    (hids : (s.people.map Person.id).Nodup) (href : refsOk s = true) :
    (∀ pid, personExists s pid = true →
      ∃ l, filterTasks s (.byPerson pid) = .ok l ∧
        ∀ t, t ∈ l ↔ (t ∈ s.tasks ∧ t.assigned_to_id = some pid)) ∧
    (∃ l, filterTasks s .unassigned = .ok l ∧
      ∀ t, t ∈ l ↔ (t ∈ s.tasks ∧ t.assigned_to_id = none)) ∧
    (filterTasks s .all = .ok s.tasks ∧
      (∀ p ∈ s.people, filterTasks s (.byPerson p.id) =
        .ok (s.tasks.filter (fun t => t.assigned_to_id == some p.id))) ∧
      s.tasks.Perm
        (s.tasks.filter (fun t => t.assigned_to_id == none) ++
          (s.people.map (fun p =>
            s.tasks.filter (fun t => t.assigned_to_id == some p.id))).flatten)) := by
  refine ⟨fun pid hex => ?_, ?_, rfl, fun p hp => ?_, ?_⟩
  · refine ⟨s.tasks.filter (fun t => t.assigned_to_id == some pid),
      by simp [filterTasks, hex], fun t => ?_⟩
    simp [List.mem_filter]
  · refine ⟨_, rfl, fun t => ?_⟩
    simp [List.mem_filter]
  · simp [filterTasks, (personExists_iff s p.id).mpr ⟨p, hp, rfl⟩]
  · exact tasks_partition s.tasks s.people hids
      (fun t ht pid hpid =>
        (personExists_iff s pid).mp ((refsOk_iff s).mp href t ht pid hpid))

/-- Claim C3 (witness): the ALL filter at a concrete valid state. -/
theorem filter_semantics_witness :
    filterTasks (CoreState.mk [⟨1, "Alice"⟩] [⟨1, "Write spec", false, 0, some 1⟩] 2 2)
      .all =
      .ok (CoreState.mk [⟨1, "Alice"⟩] [⟨1, "Write spec", false, 0, some 1⟩] 2 2).tasks :=
  (filter_semantics
    (CoreState.mk [⟨1, "Alice"⟩] [⟨1, "Write spec", false, 0, some 1⟩] 2 2)
    (by decide) (by decide)).2.2.1

/-- Claim C8: under the serializable execution the spec demands (each operation
one atomic transaction), the referential-integrity invariant holds at every
commit point of every interleaving, and the remove/assign (and remove/create)
races always hand the loser an error: an assignment or creation committed first
makes the removal fail with `ConflictError`, and a removal committed first
makes a subsequent assignment or creation toward the removed person fail with
`NotFoundError`. -/
theorem remove_assign_serializable (s : CoreState) (h : refsOk s = true) :
    (∀ ops : List Op, refsOk (execSeq ops s) = true) ∧
    (∀ tid pid s1, exec (.assign tid (some pid)) s = (s1, none) →
      exec (.removePerson pid) s1 = (s1, some .conflict)) ∧
    (∀ title now pid s1, exec (.createTask title (some pid) now) s = (s1, none) →
      exec (.removePerson pid) s1 = (s1, some .conflict)) ∧
    (∀ tid pid s1, exec (.removePerson pid) s = (s1, none) →
      exec (.assign tid (some pid)) s1 = (s1, some .notFound)) ∧
    (∀ title now pid s1, title ≠ "" → exec (.removePerson pid) s = (s1, none) →
      exec (.createTask title (some pid) now) s1 = (s1, some .notFound)) := by
  have hstep : ∀ op st, refsOk st = true → refsOk (exec op st).1 = true := by
    intro op st hst
    cases happ : applyOp op st with
    | ok s2 =>
      rw [exec_of_ok happ]
      exact refsOk_preserved hst happ
    | error e =>
      rw [exec_of_error happ]
      exact hst
  refine ⟨?_, fun tid pid s1 he => ?_, fun title now pid s1 he => ?_,
    fun tid pid s1 he => ?_, fun title now pid s1 hti he => ?_⟩
  · intro ops
    induction ops generalizing s with
    | nil => exact h
    | cons op ops ih => exact ih _ (hstep op s h)
  · -- assign committed first, then remove conflicts
    have happ := exec_none he
    simp only [applyOp, assign] at happ
    split at happ
    case isFalse => cases happ
    case isTrue hT =>
      split at happ
      case isFalse => cases happ
      case isTrue hP =>
        cases happ
        rcases (taskExists_iff s tid).mp hT with ⟨t0, ht0, htid⟩
        have hmem : ({ t0 with assigned_to_id := some pid } : Task) ∈
            s.tasks.map (fun t => if t.id = tid then { t with assigned_to_id := some pid } else t) :=
          List.mem_map.mpr ⟨t0, ht0, by simp [htid]⟩
        have hcnt : refCount { s with tasks := s.tasks.map (fun t => if t.id = tid then { t with assigned_to_id := some pid } else t) } pid ≠ 0 := by
          intro hz
          exact (refCount_eq_zero_iff _ pid).mp hz _ hmem rfl
        have hP1 : personExists { s with tasks := s.tasks.map (fun t => if t.id = tid then { t with assigned_to_id := some pid } else t) } pid = true := hP
        apply exec_of_error
        simp [applyOp, removePerson, hP1, hcnt]
  · -- create committed first, then remove conflicts
    have happ := exec_none he
    simp only [applyOp, createTask] at happ
    split at happ
    case isTrue => cases happ
    case isFalse hti =>
      split at happ
      case isFalse => cases happ
      case isTrue hP =>
        cases happ
        have hmem : (⟨s.nextTaskId, title, false, now, some pid⟩ : Task) ∈
            s.tasks ++ [⟨s.nextTaskId, title, false, now, some pid⟩] :=
          List.mem_append.mpr (Or.inr (List.mem_singleton.mpr rfl))
        have hcnt : refCount { s with tasks := s.tasks ++ [⟨s.nextTaskId, title, false, now, some pid⟩], nextTaskId := s.nextTaskId + 1 } pid ≠ 0 := by
          intro hz
          exact (refCount_eq_zero_iff _ pid).mp hz _ hmem rfl
        have hP1 : personExists { s with tasks := s.tasks ++ [⟨s.nextTaskId, title, false, now, some pid⟩], nextTaskId := s.nextTaskId + 1 } pid = true := hP
        apply exec_of_error
        simp [applyOp, removePerson, hP1, hcnt]
  · -- remove committed first, then assign fails
    have happ := exec_none he
    simp only [applyOp, removePerson] at happ
    split at happ
    case isFalse => cases happ
    case isTrue hP =>
      split at happ
      case isFalse => cases happ
      case isTrue hcnt =>
        cases happ
        have hgone : personExists { s with people := s.people.filter (fun p => p.id != pid) } pid = false := by
          simp only [personExists, List.any_eq_false]
          intro p hp
          simp only [List.mem_filter, bne_iff_ne] at hp
          simp [hp.2]
        apply exec_of_error
        cases hTb : taskExists { s with people := s.people.filter (fun p => p.id != pid) } tid with
        | true => simp [applyOp, assign, hTb, hgone]
        | false => simp [applyOp, assign, hTb]
  · -- remove committed first, then create fails
    have happ := exec_none he
    simp only [applyOp, removePerson] at happ
    split at happ
    case isFalse => cases happ
    case isTrue hP =>
      split at happ
      case isFalse => cases happ
      case isTrue hcnt =>
        cases happ
        have hgone : personExists { s with people := s.people.filter (fun p => p.id != pid) } pid = false := by
          simp only [personExists, List.any_eq_false]
          intro p hp
          simp only [List.mem_filter, bne_iff_ne] at hp
          simp [hp.2]
        apply exec_of_error
        simp [applyOp, createTask, hti, hgone]

/-- Claim C8 (witness): task 2 is created already assigned to person 2; the
subsequent removal of person 2 loses the race and fails with a conflict. -/
theorem remove_assign_serializable_witness :
    exec (.removePerson 2)
      (CoreState.mk [⟨2, "Bob"⟩] [⟨3, "Review", false, 5, some 2⟩] 3 4) =
      (CoreState.mk [⟨2, "Bob"⟩] [⟨3, "Review", false, 5, some 2⟩] 3 4,
        some .conflict) :=
  (remove_assign_serializable
    (CoreState.mk [⟨2, "Bob"⟩] [] 3 3) (by decide)).2.2.1 "Review" 5 2
    (CoreState.mk [⟨2, "Bob"⟩] [⟨3, "Review", false, 5, some 2⟩] 3 4) (by decide)

end TodoApp
